import Mathlib

/- Verification of the jetsite comparison/scoring engine, enrichment cache
and asset-resolution probe, as a shallow embedding of the JavaScript source.
JavaScript numbers are modelled as exact rationals (all claims are about
exact arithmetic identities and orderings on small values); dynamically
typed attribute values are modelled by the `JsNum` type below. -/

namespace Jetsite

/-- A dynamically typed attribute value as read from an aircraft record:
a finite number, a non-finite number (NaN or ±Infinity), or a value that is
absent or not a number at all. -/
inductive JsNum where
  | num (q : ℚ)
  | nonFinite
  | absent
deriving DecidableEq

/-- Source `valueOrZero` (AircraftProfile.jsx): a finite number passes
through, anything else becomes `0`. -/
def valueOrZero : JsNum → ℚ
  | .num q => q
  | .nonFinite => 0
  | .absent => 0

/-- One entry of the `ANALYZE_METRICS` configuration table: attribute key,
direction flag and weight.  The `label`, `unit` and `color` fields of the
source are presentation-only and never read by the scoring code, so they are
omitted here. -/
structure Metric where
  key : String
  higherBetter : Bool
  weight : ℚ
deriving DecidableEq

/-- Source `ANALYZE_METRICS` (AircraftProfile.jsx): the fixed configured
metric descriptors, in source order. -/
def ANALYZE_METRICS : List Metric := [
  ⟨"topSpeedKmh", true, 1.2⟩,
  ⟨"rangeKm", true, 1.1⟩,
  ⟨"combatRadiusKm", true, 1.1⟩,
  ⟨"serviceCeilingM", true, 0.9⟩,
  ⟨"thrustKn", true, 1.1⟩,
  ⟨"climbRateMs", true, 1⟩,
  ⟨"payloadKg", true, 1⟩,
  ⟨"hardpoints", true, 0.6⟩,
  ⟨"radarRangeKm", true, 1⟩,
  ⟨"stealthScore", true, 1.2⟩,
  ⟨"maxTakeoffWeightKg", true, 0.7⟩,
  ⟨"unitCostMUsd", false, 0.9⟩]

/-- An aircraft record: a display name and a map from attribute keys to
dynamically typed values (arbitrary further fields of the JSON record are
irrelevant to the engine). -/
structure Aircraft where
  name : String
  attrs : String → JsNum

/-- Per-metric statistics `{min, max, span}` as built by `buildMetricStats`. -/
structure MetricStats where
  min : ℚ
  max : ℚ
  span : ℚ
deriving DecidableEq

/-- A stats object keyed by metric key; `none` models an absent property
(`metricStats[metric.key]` being `undefined`). -/
abbrev StatsTable := String → Option MetricStats

/-- Source `buildMetricStats`: for each configured metric, the minimum and
maximum of the `valueOrZero`-substituted attribute values over the list
(`Math.min(...values)` / `Math.max(...values)`, with `0` resp. `1` for the
empty list), and `span = Math.max(max - min, 1)`.  Keys that are not a
configured metric key are absent from the table. -/
def buildMetricStats (aircraftList : List Aircraft) : StatsTable := fun key =>
  match ANALYZE_METRICS.find? (fun m => m.key == key) with
  | none => none
  | some m =>
    let values := aircraftList.map (fun a => valueOrZero (a.attrs m.key))
    let mn : ℚ := match values with | [] => 0 | v :: vs => vs.foldl min v
    let mx : ℚ := match values with | [] => 1 | v :: vs => vs.foldl max v
    some ⟨mn, mx, max (mx - mn) 1⟩

/-- Source `normalizedMetric`: `0` when the stats table has no entry for the
metric; exactly `1` when `stats.max === stats.min`; otherwise the clamp to
[0,1] of the baseline `(value - stats.min) / stats.span`, flipped to
`1 - baseline` for lower-is-better metrics. -/
def normalizedMetric (aircraft : Aircraft) (metric : Metric)
    (metricStats : StatsTable) : ℚ :=
  match metricStats metric.key with
  | none => 0
  | some stats =>
    let value := valueOrZero (aircraft.attrs metric.key)
    if stats.max = stats.min then 1
    else
      let baseline := (value - stats.min) / stats.span
      let normalized := if metric.higherBetter then baseline else 1 - baseline
      max 0 (min 1 normalized)

/-- JavaScript `Math.round`: nearest integer, with halves rounded toward
positive infinity. -/
def jsRound (q : ℚ) : ℤ := ⌊q + 1/2⌋

/-- Source `computeAnalyzeScore`: `0` when the total weight is non-positive,
otherwise `Math.round((weighted / totalWeight) * 100)` where `weighted` is
the weight-scaled sum of the normalized metrics. -/
def computeAnalyzeScore (aircraft : Aircraft) (metricStats : StatsTable) : ℤ :=
  let totalWeight := ANALYZE_METRICS.foldl (fun sum m => sum + m.weight) 0
  if totalWeight ≤ 0 then 0
  else
    let weighted := ANALYZE_METRICS.foldl
      (fun sum m => sum + normalizedMetric aircraft m metricStats * m.weight) 0
    jsRound (weighted / totalWeight * 100)

/-- An aircraft record extended with its composite score: the spread object
`{ ...aircraft, score }` built by `scoreboardFor`. -/
structure ScoreItem where
  name : String
  attrs : String → JsNum
  score : ℤ

/-- The "may come first" relation of `scoreboardFor`'s comparator
`(a, b) => b.score - a.score || a.name.localeCompare(b.name)`: `a` may
precede `b` exactly when the comparator value is ≤ 0.  `localeCompare` is
modelled as code-point order on the names. -/
def scoreboardRel (a b : ScoreItem) : Prop :=
  b.score < a.score ∨ (a.score = b.score ∧ a.name ≤ b.name)

instance : DecidableRel scoreboardRel := fun a b => by
  unfold scoreboardRel; infer_instance

/-- Source `scoreboardFor`: extend every aircraft with its composite score
and sort with the comparator above.  `Array.prototype.sort` is a stable
sort, and with a total-preorder comparator the stably sorted list is unique,
so it is modelled by the stable `List.insertionSort`. -/
def scoreboardFor (aircraftList : List Aircraft) (metricStats : StatsTable) :
    List ScoreItem :=
  List.insertionSort scoreboardRel
    (aircraftList.map (fun a => ⟨a.name, a.attrs, computeAnalyzeScore a metricStats⟩))

/-- The efficiency `item.score / (valueOrZero(item.unitCostMUsd) || 1)`
computed by `bestEfficiency`; the only falsy value `valueOrZero` can produce
is `0`, so `|| 1` replaces exactly the cost `0` by `1`. -/
def itemEfficiency (item : ScoreItem) : ℚ :=
  let cost := valueOrZero (item.attrs "unitCostMUsd")
  (item.score : ℚ) / (if cost = 0 then 1 else cost)

/-- A scoreboard item further extended with its efficiency: the spread
object `{ ...item, efficiency }` built by `bestEfficiency`. -/
structure EffItem where
  name : String
  attrs : String → JsNum
  score : ℤ
  efficiency : ℚ

/-- The "may come first" relation of `bestEfficiency`'s comparator
`(a, b) => b.efficiency - a.efficiency`. -/
def effRel (a b : EffItem) : Prop := b.efficiency ≤ a.efficiency

instance : DecidableRel effRel := fun a b => by
  unfold effRel; infer_instance

/-- Source `bestEfficiency` (the best-value-for-cost selection): `null` on an
empty scoreboard, otherwise the head of the scoreboard resorted by descending
efficiency. -/
def bestEfficiency (scoreboard : List ScoreItem) : Option EffItem :=
  match List.insertionSort effRel
    (scoreboard.map (fun item =>
      ⟨item.name, item.attrs, item.score, itemEfficiency item⟩)) with
  | [] => none
  | x :: _ => some x

/-- Modelled from the spec's own words for claim C5, for comparison with the
code: the quantity `score / max(cost, 1)` that the spec says
`bestValueForCost` maximizes. -/
def specValueForCost (item : ScoreItem) : ℚ :=
  (item.score : ℚ) / max (valueOrZero (item.attrs "unitCostMUsd")) 1

/-- Source `ANALYZE_LIMIT`: the maximum size of the comparison selection. -/
def ANALYZE_LIMIT : ℕ := 6

/-- Source `toggleCompare` (the state updater passed to `setCompareIds`):
remove the id when present, ignore the toggle when the selection is full,
append the id otherwise. -/
def toggleCompare (id : String) (current : List String) : List String :=
  if id ∈ current then current.filter (fun item => item ≠ id)
  else if ANALYZE_LIMIT ≤ current.length then current
  else current ++ [id]

/-- Source `clearCompare`: reset the selection to the empty list. -/
def clearCompare : List String := []

/-- The selection states reachable from the initial empty selection through
the two exposed updaters. -/
inductive ReachableSelection : List String → Prop where
  | init : ReachableSelection []
  | toggle (id : String) {s : List String} :
      ReachableSelection s → ReachableSelection (toggleCompare id s)
  | clear {s : List String} :
      ReachableSelection s → ReachableSelection clearCompare

/-- An enrichment record as parsed by `fetchSummary` from a successful
response. -/
structure Summary where
  extract : String
  image : Option String
  pageUrl : Option String

/-- The outcome of one `fetchSummary(title, signal)` call as observed by the
`try`/`catch` in `useWikiSummaries`: the promise resolves with a record or
with `null` (non-ok HTTP status), rejects with an `AbortError`
(cancellation), or rejects with any other error. -/
inductive FetchOutcome where
  | resolved (s : Option Summary)
  | abortError
  | otherError

/-- The observable effect of handling one title: the cache afterwards, the
`[title, value]` result produced, and whether a network fetch was issued. -/
structure CacheStep where
  cache : List (String × Option Summary)
  result : Option Summary
  fetched : Bool

/-- Source `useWikiSummaries`, per-title handler: a title already present in
`cacheRef.current` is answered from the cache with no fetch; otherwise one
fetch is issued and, on resolution, the resolved value (a record or `null`)
is written to the cache; on an `AbortError` nothing is written; on any other
error `null` is written.  The cache is modelled as an association list read
through `List.lookup`. -/
def processTitle (cache : List (String × Option Summary)) (title : String)
    (outcome : FetchOutcome) : CacheStep :=
  match cache.lookup title with
  | some v => ⟨cache, v, false⟩
  | none =>
    match outcome with
    | .resolved s => ⟨(title, s) :: cache, s, true⟩
    | .abortError => ⟨cache, none, true⟩
    | .otherError => ⟨(title, none) :: cache, none, true⟩

/-- One `load` pass of `useWikiSummaries` over a title list: each title's
handler touches only its own key and the runtime is single-threaded, so the
concurrent `Promise.all` fan-out is modelled as a left-to-right fold; the
second component counts the network fetches issued. -/
def runTitles : List (String × Option Summary) → List String →
    (String → FetchOutcome) → List (String × Option Summary) × ℕ
  | cache, [], _ => (cache, 0)
  | cache, t :: ts, outcome =>
    let step := processTitle cache t (outcome t)
    let rest := runTitles step.cache ts outcome
    (rest.1, (if step.fetched then 1 else 0) + rest.2)

/-- A URL path, modelled as its character sequence. -/
abbrev AssetPath := List Char

/-- The `'/models/verified/'` literal of `modelPathCandidates`. -/
def verifiedRoot : AssetPath := "/models/verified/".toList

/-- The `'/models/unverified/'` replacement literal of
`modelPathCandidates`. -/
def unverifiedRoot : AssetPath := "/models/unverified/".toList

/-- Source `modelPathCandidates` (ModelViewer.jsx): no candidates for an
empty path, the path alone when it does not start with the verified root,
otherwise the path followed by the path with the verified root replaced by
the unverified root.  `String.prototype.replace` with a string pattern
replaces the first occurrence; under the `startsWith` test that occurrence
is at index 0, so the replacement is `unverifiedRoot ++ drop`. -/
def modelPathCandidates (path : AssetPath) : List AssetPath :=
  if path.length = 0 then []
  else if ¬ verifiedRoot.isPrefixOf path then [path]
  else
    let fallbackPath := unverifiedRoot ++ path.drop verifiedRoot.length
    if fallbackPath = path then [path] else [path, fallbackPath]

/-- An HTTP response to a `HEAD` probe, reduced to its status code. -/
structure ProbeResponse where
  status : ℕ

/-- `response.ok`: status in the 200–299 range. -/
def ProbeResponse.ok (r : ProbeResponse) : Bool :=
  decide (200 ≤ r.status) && decide (r.status ≤ 299)

/-- Whether the `HEAD` check of one candidate lets the probe stop there:
the fetch resolved (`none` models a thrown network error, which the
`catch` turns into trying the next candidate) with `response.ok` or
status 405. -/
def headAccepts (net : AssetPath → Option ProbeResponse) (candidate : AssetPath) :
    Bool :=
  match net candidate with
  | some r => r.ok || r.status == 405
  | none => false

/-- The sequential `for … of candidates` loop of `verify`: returns the first
accepted candidate (or `none`) together with the list of candidates actually
probed, in order. -/
def probeCandidates (net : AssetPath → Option ProbeResponse) :
    List AssetPath → Option AssetPath × List AssetPath
  | [] => (none, [])
  | c :: cs =>
    if headAccepts net c then (some c, [c])
    else
      let rest := probeCandidates net cs
      (rest.1, c :: rest.2)

/-- The availability state of `ModelViewer`. -/
inductive Availability where
  | checking
  | ready
  | missing
deriving DecidableEq

/-- The state committed by `verify`: availability, resolved path, and the
`HEAD` requests issued (in order). -/
structure VerifyState where
  availability : Availability
  resolvedPath : Option AssetPath
  requests : List AssetPath

/-- Source `verify` (ModelViewer.jsx), for a run that is not cancelled:
a missing or empty (falsy) primary path commits `missing` with a `null`
resolved path and no request; otherwise the candidates are probed in order
and the first accepted one commits `ready`, falling back to `missing` with
the original primary path when none is accepted.  `none` as the first
argument models `model?.path` being absent. -/
def verify (modelPath : Option AssetPath)
    (net : AssetPath → Option ProbeResponse) : VerifyState :=
  match modelPath with
  | none => ⟨.missing, none, []⟩
  | some path =>
    if path.length = 0 then ⟨.missing, none, []⟩
    else
      let result := probeCandidates net (modelPathCandidates path)
      match result.1 with
      | some candidate => ⟨.ready, some candidate, result.2⟩
      | none => ⟨.missing, some path, result.2⟩

/-! Concrete data used to instantiate theorems with hypotheses and to refute
claim C5. -/

/-- Concrete aircraft with attribute value 5 for every key. -/
def acC1 : Aircraft := ⟨"W1", fun _ => JsNum.num 5⟩

/-- The higher-is-better metric used by the concrete C1/C3 instances. -/
def mC1 : Metric := ⟨"topSpeedKmh", true, 1.2⟩

/-- A stats table answering `{min 0, max 10, span 10}` for every key. -/
def stC1 : StatsTable := fun _ => some ⟨0, 10, 10⟩

/-- A stats table whose every entry ties (`max = min`). -/
def stC3 : StatsTable := fun _ => some ⟨7, 7, 1⟩

/-- A one-item scoreboard used to instantiate C5's amended theorem. -/
def sbC5 : List ScoreItem := [⟨"A", fun _ => JsNum.absent, 50⟩]

/-- A cheap aircraft (unit cost 0.5 M USD, all other attributes absent) on
which the code's `|| 1` cost guard and the spec's `max(cost, 1)` differ. -/
def cexCheap : Aircraft :=
  ⟨"CHEAP", fun k => if k = "unitCostMUsd" then JsNum.num 0.5 else JsNum.absent⟩

/-- A faster but costlier aircraft (unit cost 1 M USD, top speed 1000 km/h,
all other attributes absent). -/
def cexFast : Aircraft :=
  ⟨"FAST", fun k =>
    if k = "unitCostMUsd" then JsNum.num 1 else
    if k = "topSpeedKmh" then JsNum.num 1000 else JsNum.absent⟩

/-- The metric stats over the two-aircraft comparison set above. -/
def cexStats : StatsTable := buildMetricStats [cexCheap, cexFast]

/-- An aircraft with every attribute absent, for the C10 instance. -/
def acC10 : Aircraft := ⟨"X", fun _ => JsNum.absent⟩

/-- The spec's own probe example path, under the verified root. -/
def pathC7 : AssetPath := "/models/verified/f22.glb".toList

/-- A network where the verified candidate's check throws and every other
path answers 200. -/
def netC7 : AssetPath → Option ProbeResponse :=
  fun p => if p = pathC7 then none else some ⟨200⟩

/-- A primary path outside the verified root. -/
def pathC8 : AssetPath := "/models/other/a.glb".toList

/-- A network answering 404 everywhere. -/
def netC8 : AssetPath → Option ProbeResponse := fun _ => some ⟨404⟩

/-! Helper lemmas shared by several claims. -/

theorem buildMetricStats_pair (key : String) (m : Metric)
    (hf : ANALYZE_METRICS.find? (fun x => x.key == key) = some m)
    (a b : Aircraft) (va vb : ℚ)
    (ha : valueOrZero (a.attrs m.key) = va) (hb : valueOrZero (b.attrs m.key) = vb) :
    buildMetricStats [a, b] key =
      some ⟨min va vb, max va vb, max (max va vb - min va vb) 1⟩ := by
  unfold buildMetricStats
  rw [hf]
  dsimp only [List.map_cons, List.map_nil, List.foldl_cons, List.foldl_nil]
  rw [ha, hb]

theorem normalizedMetric_tie (a : Aircraft) (m : Metric) (st : StatsTable)
    (s : MetricStats) (hs : st m.key = some s) (heq : s.max = s.min) :
    normalizedMetric a m st = 1 := by
  unfold normalizedMetric
  rw [hs]
  dsimp only
  rw [if_pos heq]

theorem normalizedMetric_eval (a : Aircraft) (m : Metric) (st : StatsTable)
    (s : MetricStats) (hs : st m.key = some s) (hne : s.max ≠ s.min)
    (v : ℚ) (hv : valueOrZero (a.attrs m.key) = v) :
    normalizedMetric a m st =
      max 0 (min 1 (if m.higherBetter
        then (v - s.min) / s.span else 1 - (v - s.min) / s.span)) := by
  unfold normalizedMetric
  rw [hs]
  dsimp only
  rw [if_neg hne, hv]

theorem normalizedMetric_nonneg (a : Aircraft) (m : Metric) (st : StatsTable) :
    0 ≤ normalizedMetric a m st := by
  unfold normalizedMetric
  cases h : st m.key with
  | none => exact le_refl 0
  | some s =>
    dsimp only
    split
    · exact zero_le_one
    · exact le_max_left 0 _

theorem normalizedMetric_le_one (a : Aircraft) (m : Metric) (st : StatsTable) :
    normalizedMetric a m st ≤ 1 := by
  unfold normalizedMetric
  cases h : st m.key with
  | none => exact zero_le_one
  | some s =>
    dsimp only
    split
    · exact le_refl 1
    · exact max_le zero_le_one (min_le_left 1 _)

theorem foldl_add_eq_sum (f : Metric → ℚ) :
    ∀ (l : List Metric) (c : ℚ), l.foldl (fun s m => s + f m) c = c + (l.map f).sum
  | [], c => by simp
  | m :: l, c => by
    simp only [List.foldl_cons, List.map_cons, List.sum_cons,
      foldl_add_eq_sum f l (c + f m)]
    ring

theorem totalWeight_foldl :
    ANALYZE_METRICS.foldl (fun sum m => sum + m.weight) 0 = 59/5 := by
  rw [foldl_add_eq_sum (fun m => m.weight) ANALYZE_METRICS 0]
  norm_num [ANALYZE_METRICS]

theorem foldl_min_spec : ∀ (vs : List ℚ) (v : ℚ),
    (vs.foldl min v = v ∨ vs.foldl min v ∈ vs) ∧
    vs.foldl min v ≤ v ∧ ∀ x ∈ vs, vs.foldl min v ≤ x
  | [], v => by simp
  | w :: ws, v => by
    have ih := foldl_min_spec ws (min v w)
    simp only [List.foldl_cons]
    refine ⟨?_, ?_, ?_⟩
    · rcases ih.1 with h | h
      · rcases min_choice v w with hc | hc
        · rw [h, hc]; exact Or.inl rfl
        · rw [h, hc]; exact Or.inr (List.mem_cons_self w ws)
      · exact Or.inr (List.mem_cons_of_mem w h)
    · exact le_trans ih.2.1 (min_le_left v w)
    · intro x hx
      rcases List.mem_cons.mp hx with rfl | hx
      · exact le_trans ih.2.1 (min_le_right v x)
      · exact ih.2.2 x hx

theorem foldl_max_spec : ∀ (vs : List ℚ) (v : ℚ),
    (vs.foldl max v = v ∨ vs.foldl max v ∈ vs) ∧
    v ≤ vs.foldl max v ∧ ∀ x ∈ vs, x ≤ vs.foldl max v
  | [], v => by simp
  | w :: ws, v => by
    have ih := foldl_max_spec ws (max v w)
    simp only [List.foldl_cons]
    refine ⟨?_, ?_, ?_⟩
    · rcases ih.1 with h | h
      · rcases max_choice v w with hc | hc
        · rw [h, hc]; exact Or.inl rfl
        · rw [h, hc]; exact Or.inr (List.mem_cons_self w ws)
      · exact Or.inr (List.mem_cons_of_mem w h)
    · exact le_trans (le_max_left v w) ih.2.1
    · intro x hx
      rcases List.mem_cons.mp hx with rfl | hx
      · exact le_trans (le_max_right v x) ih.2.1
      · exact ih.2.2 x hx

theorem find?_metric_key (m : Metric) (hm : m ∈ ANALYZE_METRICS) :
    ∃ m', ANALYZE_METRICS.find? (fun x => x.key == m.key) = some m' ∧
      m'.key = m.key := by
  have hsome : (ANALYZE_METRICS.find? (fun x => x.key == m.key)).isSome :=
    List.find?_isSome.mpr ⟨m, hm, by simp⟩
  obtain ⟨m', hm'⟩ := Option.isSome_iff_exists.mp hsome
  refine ⟨m', hm', ?_⟩
  have := List.find?_some hm'
  simpa using this

/-! Claim theorems. -/

/-- C1: when the stats table has an entry for the metric whose `max` and
`min` differ, `normalizedMetric` equals the clamp to [0,1] of the
directional baseline `(value - stats.min) / stats.span` (with the attribute
value replaced by 0 when missing or non-finite, and the baseline flipped to
`1 - baseline` for lower-is-better metrics); in particular the result lies
in [0,1]. -/
theorem C1_normalizedMetric_clamped_baseline (a : Aircraft) (m : Metric)
    (st : StatsTable) (s : MetricStats) (hs : st m.key = some s)
    (hne : s.max ≠ s.min) :
    normalizedMetric a m st =
      max 0 (min 1 (if m.higherBetter
        then (valueOrZero (a.attrs m.key) - s.min) / s.span
        else 1 - (valueOrZero (a.attrs m.key) - s.min) / s.span)) ∧
    0 ≤ normalizedMetric a m st ∧ normalizedMetric a m st ≤ 1 := by
  refine ⟨?_, normalizedMetric_nonneg a m st, normalizedMetric_le_one a m st⟩
  unfold normalizedMetric
  rw [hs]
  dsimp only
  rw [if_neg hne]

theorem C1_witness :
    stC1 "topSpeedKmh" = some ⟨0, 10, 10⟩ ∧ ((10 : ℚ) ≠ 0) ∧
    normalizedMetric acC1 mC1 stC1 = 1/2 := by
  refine ⟨rfl, by norm_num, ?_⟩
  have h := (C1_normalizedMetric_clamped_baseline acC1 mC1 stC1 ⟨0, 10, 10⟩ rfl
    (by norm_num)).1
  rw [h]
  norm_num [acC1, mC1, valueOrZero]

theorem weighted_sum_bounds (a : Aircraft) (st : StatsTable) :
    ∀ l : List Metric, (∀ m ∈ l, 0 ≤ m.weight) →
      0 ≤ (l.map (fun m => normalizedMetric a m st * m.weight)).sum ∧
      (l.map (fun m => normalizedMetric a m st * m.weight)).sum ≤
        (l.map (fun m => m.weight)).sum
  | [], _ => by simp
  | m :: l, h => by
    have ihm := h m (List.mem_cons_self m l)
    have ih := weighted_sum_bounds a st l (fun x hx => h x (List.mem_cons_of_mem m hx))
    have h0 := normalizedMetric_nonneg a m st
    have h1 := normalizedMetric_le_one a m st
    simp only [List.map_cons, List.sum_cons]
    constructor
    · have : 0 ≤ normalizedMetric a m st * m.weight := mul_nonneg h0 ihm
      linarith [ih.1]
    · have : normalizedMetric a m st * m.weight ≤ m.weight := by
        nlinarith
      linarith [ih.2]

/-- C2: `computeAnalyzeScore` equals
`round(100 * Σ(normalizedMetric(aircraft, m, stats) * m.weight) / Σ(m.weight))`
over the configured metric descriptors, and the result is an integer in
[0,100]. -/
theorem C2_computeAnalyzeScore_formula (a : Aircraft) (st : StatsTable) :
    computeAnalyzeScore a st =
      jsRound (100 * ((ANALYZE_METRICS.map
          (fun m => normalizedMetric a m st * m.weight)).sum /
        (ANALYZE_METRICS.map (fun m => m.weight)).sum)) ∧
    0 ≤ computeAnalyzeScore a st ∧ computeAnalyzeScore a st ≤ 100 := by
  have hwpos : ∀ m ∈ ANALYZE_METRICS, 0 ≤ m.weight := by
    intro m hmem0
    simp only [ANALYZE_METRICS, List.mem_cons, List.not_mem_nil, or_false] at hmem0
    rcases hmem0 with rfl | rfl | rfl | rfl | rfl | rfl | rfl | rfl | rfl | rfl | rfl | rfl <;>
      norm_num
  have hW : (ANALYZE_METRICS.map (fun m => m.weight)).sum = 59/5 := by
    norm_num [ANALYZE_METRICS]
  have htot : ANALYZE_METRICS.foldl (fun sum m => sum + m.weight) 0 = 59/5 := by
    rw [foldl_add_eq_sum (fun m => m.weight) ANALYZE_METRICS 0, hW]
    ring
  have hw : ANALYZE_METRICS.foldl
      (fun sum m => sum + normalizedMetric a m st * m.weight) 0 =
      (ANALYZE_METRICS.map (fun m => normalizedMetric a m st * m.weight)).sum := by
    rw [foldl_add_eq_sum (fun m => normalizedMetric a m st * m.weight)
      ANALYZE_METRICS 0]
    ring
  have hb := weighted_sum_bounds a st ANALYZE_METRICS hwpos
  set W := (ANALYZE_METRICS.map (fun m => normalizedMetric a m st * m.weight)).sum
    with hWdef
  have hscore : computeAnalyzeScore a st = jsRound (W / (59/5) * 100) := by
    unfold computeAnalyzeScore
    rw [htot, hw, if_neg (by norm_num)]
  have harg : W / (59/5) * 100 = 100 * (W / (59/5)) := by ring
  have hq0 : 0 ≤ W / (59/5) := div_nonneg hb.1 (by norm_num)
  have hq1 : W / (59/5) ≤ 1 := by
    rw [div_le_one (by norm_num : (0:ℚ) < 59/5)]
    calc W ≤ (ANALYZE_METRICS.map (fun m => m.weight)).sum := hb.2
    _ = 59/5 := hW
  refine ⟨by rw [hscore, harg, hW], ?_, ?_⟩
  · rw [hscore]
    unfold jsRound
    exact Int.le_floor.mpr (by push_cast; linarith)
  · rw [hscore]
    unfold jsRound
    have : ⌊W / (59/5) * 100 + 1/2⌋ < 101 := Int.floor_lt.mpr (by push_cast; linarith)
    omega

/-- C3: a stats entry with `max = min` makes `normalizedMetric` exactly 1
for every aircraft regardless of the direction flag; and the stats built
over a non-empty list whose substituted values for a configured metric all
coincide are such an entry, so every aircraft then normalizes to 1 on that
metric. -/
theorem C3_tie_normalizes_to_one (a : Aircraft) (m : Metric) (st : StatsTable)
    (s : MetricStats) (hs : st m.key = some s) (heq : s.max = s.min) :
    normalizedMetric a m st = 1 ∧
    ∀ m' ∈ ANALYZE_METRICS, ∀ l : List Aircraft, l ≠ [] →
      (∀ a₁ ∈ l, ∀ a₂ ∈ l,
        valueOrZero (a₁.attrs m'.key) = valueOrZero (a₂.attrs m'.key)) →
      ∀ b : Aircraft, normalizedMetric b m' (buildMetricStats l) = 1 := by
  constructor
  · unfold normalizedMetric
    rw [hs]
    dsimp only
    rw [if_pos heq]
  · intro m' hm' l hl hcoin b
    obtain ⟨m'', hfind, hkey⟩ := find?_metric_key m' hm'
    obtain ⟨a₀, rest, rfl⟩ := List.exists_cons_of_ne_nil hl
    have hall : ∀ x ∈ (a₀ :: rest).map (fun a => valueOrZero (a.attrs m''.key)),
        x = valueOrZero (a₀.attrs m''.key) := by
      intro x hx
      obtain ⟨a₁, ha₁, rfl⟩ := List.mem_map.mp hx
      rw [hkey]
      exact hcoin a₁ ha₁ a₀ (List.mem_cons_self a₀ rest)
    have hbuild : buildMetricStats (a₀ :: rest) m'.key =
        some ⟨valueOrZero (a₀.attrs m''.key), valueOrZero (a₀.attrs m''.key), 1⟩ := by
      unfold buildMetricStats
      rw [hfind]
      dsimp only [List.map_cons]
      have hmin := foldl_min_spec (rest.map (fun a => valueOrZero (a.attrs m''.key)))
        (valueOrZero (a₀.attrs m''.key))
      have hmax := foldl_max_spec (rest.map (fun a => valueOrZero (a.attrs m''.key)))
        (valueOrZero (a₀.attrs m''.key))
      have hmn : (rest.map (fun a => valueOrZero (a.attrs m''.key))).foldl min
          (valueOrZero (a₀.attrs m''.key)) = valueOrZero (a₀.attrs m''.key) := by
        rcases hmin.1 with h | h
        · exact h
        · exact hall _ (List.mem_cons_of_mem _ h)
      have hmx : (rest.map (fun a => valueOrZero (a.attrs m''.key))).foldl max
          (valueOrZero (a₀.attrs m''.key)) = valueOrZero (a₀.attrs m''.key) := by
        rcases hmax.1 with h | h
        · exact h
        · exact hall _ (List.mem_cons_of_mem _ h)
      rw [hmn, hmx]
      norm_num
    unfold normalizedMetric
    rw [hbuild]
    dsimp only
    rw [if_pos rfl]

theorem C3_witness :
    stC3 "topSpeedKmh" = some ⟨7, 7, 1⟩ ∧
    normalizedMetric acC1 mC1 stC3 = 1 :=
  ⟨rfl, (C3_tie_normalizes_to_one acC1 mC1 stC3 ⟨7, 7, 1⟩ rfl rfl).1⟩

instance : IsTotal ScoreItem scoreboardRel where
  total a b := by
    unfold scoreboardRel
    rcases lt_trichotomy a.score b.score with h | h | h
    · exact Or.inr (Or.inl h)
    · rcases le_total a.name b.name with hn | hn
      · exact Or.inl (Or.inr ⟨h, hn⟩)
      · exact Or.inr (Or.inr ⟨h.symm, hn⟩)
    · exact Or.inl (Or.inl h)

instance : IsTrans ScoreItem scoreboardRel where
  trans a b c hab hbc := by
    unfold scoreboardRel at *
    rcases hab with hab | ⟨hab, han⟩ <;> rcases hbc with hbc | ⟨hbc, hbn⟩
    · exact Or.inl (lt_trans hbc hab)
    · exact Or.inl (hbc ▸ hab)
    · exact Or.inl (hab ▸ hbc)
    · exact Or.inr ⟨hab.trans hbc, le_trans han hbn⟩

/-- C4: `scoreboardFor` returns a permutation of the input items extended
with their composite scores, pairwise sorted so that scores are descending
and equal scores are ordered by ascending display name. -/
theorem C4_scoreboardFor_sorted_perm (l : List Aircraft) (st : StatsTable) :
    (scoreboardFor l st).Perm
      (l.map (fun a => ⟨a.name, a.attrs, computeAnalyzeScore a st⟩)) ∧
    (scoreboardFor l st).Pairwise
      (fun x y => y.score ≤ x.score ∧ (x.score = y.score → x.name ≤ y.name)) := by
  constructor
  · exact List.perm_insertionSort scoreboardRel _
  · have hs := List.sorted_insertionSort scoreboardRel
      (l.map (fun a => ⟨a.name, a.attrs, computeAnalyzeScore a st⟩))
    refine List.Pairwise.imp ?_ hs
    intro x y h
    rcases h with h | ⟨he, hn⟩
    · exact ⟨le_of_lt h, fun heq => absurd (heq ▸ h) (lt_irrefl _)⟩
    · exact ⟨le_of_eq he.symm, fun _ => hn⟩

instance : IsTotal EffItem effRel where
  total a b := le_total b.efficiency a.efficiency

instance : IsTrans EffItem effRel where
  trans _ _ _ hab hbc := le_trans hbc hab

/-- C5 (amended): on a non-empty scoreboard, `bestEfficiency` returns one of
the compared items (extended with its efficiency) whose efficiency
`score / (cost == 0 ? 1 : cost)` — with the cost first substituted to 0 when
missing or non-finite — is maximal over the scoreboard. -/
theorem C5_bestEfficiency_amended (sb : List ScoreItem) (hne : sb ≠ []) :
    ∃ x, bestEfficiency sb = some x ∧
      (∃ i ∈ sb, x = ⟨i.name, i.attrs, i.score, itemEfficiency i⟩) ∧
      ∀ i ∈ sb, itemEfficiency i ≤ x.efficiency := by
  have hperm := List.perm_insertionSort effRel (sb.map fun item =>
    (⟨item.name, item.attrs, item.score, itemEfficiency item⟩ : EffItem))
  have hsorted := List.sorted_insertionSort effRel (sb.map fun item =>
    (⟨item.name, item.attrs, item.score, itemEfficiency item⟩ : EffItem))
  cases hsort : List.insertionSort effRel (sb.map fun item =>
      (⟨item.name, item.attrs, item.score, itemEfficiency item⟩ : EffItem)) with
  | nil =>
    exfalso
    rw [hsort] at hperm
    exact hne (List.map_eq_nil_iff.mp hperm.symm.eq_nil)
  | cons x rest =>
    rw [hsort] at hperm hsorted
    refine ⟨x, ?_, ?_, ?_⟩
    · unfold bestEfficiency
      rw [hsort]
    · have hx : x ∈ sb.map fun item =>
          (⟨item.name, item.attrs, item.score, itemEfficiency item⟩ : EffItem) :=
        hperm.mem_iff.mp (List.mem_cons_self x rest)
      obtain ⟨i, hi, hxi⟩ := List.mem_map.mp hx
      exact ⟨i, hi, hxi.symm⟩
    · intro i hi
      have himem : (⟨i.name, i.attrs, i.score, itemEfficiency i⟩ : EffItem) ∈
          x :: rest :=
        hperm.symm.mem_iff.mp (List.mem_map.mpr ⟨i, hi, rfl⟩)
      rcases List.mem_cons.mp himem with h | h
      · exact le_of_eq (congrArg EffItem.efficiency h)
      · exact (List.sorted_cons.mp hsorted).1 _ h

theorem C5_witness :
    sbC5 ≠ [] ∧ ∃ x, bestEfficiency sbC5 = some x ∧
      (∃ i ∈ sbC5, x = ⟨i.name, i.attrs, i.score, itemEfficiency i⟩) ∧
      ∀ i ∈ sbC5, itemEfficiency i ≤ x.efficiency :=
  ⟨List.cons_ne_nil _ _, C5_bestEfficiency_amended sbC5 (List.cons_ne_nil _ _)⟩

/-! Evaluation of the C5 counterexample data. -/

theorem cex_speed_stats : cexStats "topSpeedKmh" = some ⟨0, 1000, 1000⟩ := by
  rw [cexStats, buildMetricStats_pair "topSpeedKmh" ⟨"topSpeedKmh", true, 1.2⟩ rfl
    cexCheap cexFast 0 1000 rfl rfl]
  norm_num

theorem cex_range_stats : cexStats "rangeKm" = some ⟨0, 0, 1⟩ := by
  rw [cexStats, buildMetricStats_pair "rangeKm" ⟨"rangeKm", true, 1.1⟩ rfl
    cexCheap cexFast 0 0 rfl rfl]
  norm_num

theorem cex_combat_stats : cexStats "combatRadiusKm" = some ⟨0, 0, 1⟩ := by
  rw [cexStats, buildMetricStats_pair "combatRadiusKm" ⟨"combatRadiusKm", true, 1.1⟩ rfl
    cexCheap cexFast 0 0 rfl rfl]
  norm_num

theorem cex_ceiling_stats : cexStats "serviceCeilingM" = some ⟨0, 0, 1⟩ := by
  rw [cexStats, buildMetricStats_pair "serviceCeilingM" ⟨"serviceCeilingM", true, 0.9⟩ rfl
    cexCheap cexFast 0 0 rfl rfl]
  norm_num

theorem cex_thrust_stats : cexStats "thrustKn" = some ⟨0, 0, 1⟩ := by
  rw [cexStats, buildMetricStats_pair "thrustKn" ⟨"thrustKn", true, 1.1⟩ rfl
    cexCheap cexFast 0 0 rfl rfl]
  norm_num

theorem cex_climb_stats : cexStats "climbRateMs" = some ⟨0, 0, 1⟩ := by
  rw [cexStats, buildMetricStats_pair "climbRateMs" ⟨"climbRateMs", true, 1⟩ rfl
    cexCheap cexFast 0 0 rfl rfl]
  norm_num

theorem cex_payload_stats : cexStats "payloadKg" = some ⟨0, 0, 1⟩ := by
  rw [cexStats, buildMetricStats_pair "payloadKg" ⟨"payloadKg", true, 1⟩ rfl
    cexCheap cexFast 0 0 rfl rfl]
  norm_num

theorem cex_hardpoints_stats : cexStats "hardpoints" = some ⟨0, 0, 1⟩ := by
  rw [cexStats, buildMetricStats_pair "hardpoints" ⟨"hardpoints", true, 0.6⟩ rfl
    cexCheap cexFast 0 0 rfl rfl]
  norm_num

theorem cex_radar_stats : cexStats "radarRangeKm" = some ⟨0, 0, 1⟩ := by
  rw [cexStats, buildMetricStats_pair "radarRangeKm" ⟨"radarRangeKm", true, 1⟩ rfl
    cexCheap cexFast 0 0 rfl rfl]
  norm_num

theorem cex_stealth_stats : cexStats "stealthScore" = some ⟨0, 0, 1⟩ := by
  rw [cexStats, buildMetricStats_pair "stealthScore" ⟨"stealthScore", true, 1.2⟩ rfl
    cexCheap cexFast 0 0 rfl rfl]
  norm_num

theorem cex_mtow_stats : cexStats "maxTakeoffWeightKg" = some ⟨0, 0, 1⟩ := by
  rw [cexStats, buildMetricStats_pair "maxTakeoffWeightKg" ⟨"maxTakeoffWeightKg", true, 0.7⟩ rfl
    cexCheap cexFast 0 0 rfl rfl]
  norm_num

theorem cex_cost_stats : cexStats "unitCostMUsd" = some ⟨0.5, 1, 1⟩ := by
  rw [cexStats, buildMetricStats_pair "unitCostMUsd" ⟨"unitCostMUsd", false, 0.9⟩ rfl
    cexCheap cexFast 0.5 1 rfl rfl]
  norm_num

theorem cex_nC_speed : normalizedMetric cexCheap ⟨"topSpeedKmh", true, 1.2⟩ cexStats = 0 := by
  rw [normalizedMetric_eval cexCheap ⟨"topSpeedKmh", true, 1.2⟩ cexStats
    ⟨0, 1000, 1000⟩ cex_speed_stats (by norm_num) 0 rfl]
  norm_num

theorem cex_nF_speed : normalizedMetric cexFast ⟨"topSpeedKmh", true, 1.2⟩ cexStats = 1 := by
  rw [normalizedMetric_eval cexFast ⟨"topSpeedKmh", true, 1.2⟩ cexStats
    ⟨0, 1000, 1000⟩ cex_speed_stats (by norm_num) 1000 rfl]
  norm_num

theorem cex_n_range : ∀ b, normalizedMetric b ⟨"rangeKm", true, 1.1⟩ cexStats = 1 :=
  fun b => normalizedMetric_tie b _ cexStats ⟨0, 0, 1⟩ cex_range_stats rfl

theorem cex_n_combat : ∀ b, normalizedMetric b ⟨"combatRadiusKm", true, 1.1⟩ cexStats = 1 :=
  fun b => normalizedMetric_tie b _ cexStats ⟨0, 0, 1⟩ cex_combat_stats rfl

theorem cex_n_ceiling : ∀ b, normalizedMetric b ⟨"serviceCeilingM", true, 0.9⟩ cexStats = 1 :=
  fun b => normalizedMetric_tie b _ cexStats ⟨0, 0, 1⟩ cex_ceiling_stats rfl

theorem cex_n_thrust : ∀ b, normalizedMetric b ⟨"thrustKn", true, 1.1⟩ cexStats = 1 :=
  fun b => normalizedMetric_tie b _ cexStats ⟨0, 0, 1⟩ cex_thrust_stats rfl

theorem cex_n_climb : ∀ b, normalizedMetric b ⟨"climbRateMs", true, 1⟩ cexStats = 1 :=
  fun b => normalizedMetric_tie b _ cexStats ⟨0, 0, 1⟩ cex_climb_stats rfl

theorem cex_n_payload : ∀ b, normalizedMetric b ⟨"payloadKg", true, 1⟩ cexStats = 1 :=
  fun b => normalizedMetric_tie b _ cexStats ⟨0, 0, 1⟩ cex_payload_stats rfl

theorem cex_n_hardpoints : ∀ b, normalizedMetric b ⟨"hardpoints", true, 0.6⟩ cexStats = 1 :=
  fun b => normalizedMetric_tie b _ cexStats ⟨0, 0, 1⟩ cex_hardpoints_stats rfl

theorem cex_n_radar : ∀ b, normalizedMetric b ⟨"radarRangeKm", true, 1⟩ cexStats = 1 :=
  fun b => normalizedMetric_tie b _ cexStats ⟨0, 0, 1⟩ cex_radar_stats rfl

theorem cex_n_stealth : ∀ b, normalizedMetric b ⟨"stealthScore", true, 1.2⟩ cexStats = 1 :=
  fun b => normalizedMetric_tie b _ cexStats ⟨0, 0, 1⟩ cex_stealth_stats rfl

theorem cex_n_mtow : ∀ b, normalizedMetric b ⟨"maxTakeoffWeightKg", true, 0.7⟩ cexStats = 1 :=
  fun b => normalizedMetric_tie b _ cexStats ⟨0, 0, 1⟩ cex_mtow_stats rfl

theorem cex_nC_cost : normalizedMetric cexCheap ⟨"unitCostMUsd", false, 0.9⟩ cexStats = 1 := by
  rw [normalizedMetric_eval cexCheap ⟨"unitCostMUsd", false, 0.9⟩ cexStats
    ⟨0.5, 1, 1⟩ cex_cost_stats (by norm_num) 0.5 rfl]
  norm_num

theorem cex_nF_cost : normalizedMetric cexFast ⟨"unitCostMUsd", false, 0.9⟩ cexStats = 0.5 := by
  rw [normalizedMetric_eval cexFast ⟨"unitCostMUsd", false, 0.9⟩ cexStats
    ⟨0.5, 1, 1⟩ cex_cost_stats (by norm_num) 1 rfl]
  norm_num

theorem cex_scoreC : computeAnalyzeScore cexCheap cexStats = 90 := by
  unfold computeAnalyzeScore
  rw [totalWeight_foldl]
  have hw : ANALYZE_METRICS.foldl
      (fun sum m => sum + normalizedMetric cexCheap m cexStats * m.weight) 0 = 53/5 := by
    simp only [ANALYZE_METRICS, List.foldl_cons, List.foldl_nil]
    rw [cex_nC_speed, cex_n_range cexCheap, cex_n_combat cexCheap, cex_n_ceiling cexCheap,
      cex_n_thrust cexCheap, cex_n_climb cexCheap, cex_n_payload cexCheap,
      cex_n_hardpoints cexCheap, cex_n_radar cexCheap, cex_n_stealth cexCheap,
      cex_n_mtow cexCheap, cex_nC_cost]
    norm_num
  rw [hw]
  norm_num [jsRound]

theorem cex_scoreF : computeAnalyzeScore cexFast cexStats = 96 := by
  unfold computeAnalyzeScore
  rw [totalWeight_foldl]
  have hw : ANALYZE_METRICS.foldl
      (fun sum m => sum + normalizedMetric cexFast m cexStats * m.weight) 0 = 227/20 := by
    simp only [ANALYZE_METRICS, List.foldl_cons, List.foldl_nil]
    rw [cex_nF_speed, cex_n_range cexFast, cex_n_combat cexFast, cex_n_ceiling cexFast,
      cex_n_thrust cexFast, cex_n_climb cexFast, cex_n_payload cexFast,
      cex_n_hardpoints cexFast, cex_n_radar cexFast, cex_n_stealth cexFast,
      cex_n_mtow cexFast, cex_nF_cost]
    norm_num
  rw [hw]
  norm_num [jsRound]

theorem cex_scoreboard_eq : scoreboardFor [cexCheap, cexFast] cexStats =
    [⟨cexFast.name, cexFast.attrs, 96⟩, ⟨cexCheap.name, cexCheap.attrs, 90⟩] := by
  unfold scoreboardFor
  simp only [List.map_cons, List.map_nil, cex_scoreC, cex_scoreF]
  have hnotrel : ¬ scoreboardRel ⟨cexCheap.name, cexCheap.attrs, 90⟩
      ⟨cexFast.name, cexFast.attrs, 96⟩ := by
    simp [scoreboardRel]
  simp only [List.insertionSort, List.orderedInsert, if_neg hnotrel]

theorem cex_effC : itemEfficiency ⟨cexCheap.name, cexCheap.attrs, 90⟩ = 180 := by
  have hv : valueOrZero (cexCheap.attrs "unitCostMUsd") = 0.5 := rfl
  norm_num [itemEfficiency, hv]

theorem cex_effF : itemEfficiency ⟨cexFast.name, cexFast.attrs, 96⟩ = 96 := by
  have hv : valueOrZero (cexFast.attrs "unitCostMUsd") = 1 := rfl
  norm_num [itemEfficiency, hv]

theorem cex_best : bestEfficiency (scoreboardFor [cexCheap, cexFast] cexStats) =
    some ⟨cexCheap.name, cexCheap.attrs, 90, 180⟩ := by
  rw [cex_scoreboard_eq]
  unfold bestEfficiency
  simp only [List.map_cons, List.map_nil, cex_effC, cex_effF]
  have hnot : ¬ effRel ⟨cexFast.name, cexFast.attrs, 96, 96⟩
      ⟨cexCheap.name, cexCheap.attrs, 90, 180⟩ := by
    norm_num [effRel]
  simp only [List.insertionSort, List.orderedInsert, if_neg hnot]

/-- C5 as stated is false on the code: over the comparison set
`[cexCheap, cexFast]`, the best-value-for-cost selection returns the CHEAP
aircraft (score 90, unit cost 0.5, code efficiency `90 / 0.5 = 180`), yet
the FAST aircraft — also on the scoreboard — has a strictly larger value of
the spec's quantity `score / max(cost, 1)` (96 versus 90), so the returned
entity does not maximize `score / max(cost, 1)`: the code divides by the
raw cost whenever it is non-zero, the spec's `max(cost, 1)` only claims
protection for costs below 1. -/
theorem C5_counterexample :
    bestEfficiency (scoreboardFor [cexCheap, cexFast]
        (buildMetricStats [cexCheap, cexFast])) =
      some ⟨cexCheap.name, cexCheap.attrs, 90, 180⟩ ∧
    (⟨cexFast.name, cexFast.attrs, 96⟩ : ScoreItem) ∈
      scoreboardFor [cexCheap, cexFast] (buildMetricStats [cexCheap, cexFast]) ∧
    specValueForCost ⟨cexCheap.name, cexCheap.attrs, 90⟩ <
      specValueForCost ⟨cexFast.name, cexFast.attrs, 96⟩ := by
  refine ⟨cex_best, ?_, ?_⟩
  · have h : buildMetricStats [cexCheap, cexFast] = cexStats := rfl
    rw [h, cex_scoreboard_eq]
    exact List.mem_cons_self _ _
  · have hc : valueOrZero (cexCheap.attrs "unitCostMUsd") = 0.5 := rfl
    have hf : valueOrZero (cexFast.attrs "unitCostMUsd") = 1 := rfl
    norm_num [specValueForCost, hc, hf]

/-! Claims C9 and C10. -/

theorem reachable_invariant (s : List String) (h : ReachableSelection s) :
    s.Nodup ∧ s.length ≤ ANALYZE_LIMIT := by
  induction h with
  | init => exact ⟨List.nodup_nil, by simp [ANALYZE_LIMIT]⟩
  | clear _ => exact ⟨List.nodup_nil, by simp [clearCompare, ANALYZE_LIMIT]⟩
  | @toggle id s _ ih =>
    unfold toggleCompare
    by_cases hmem : id ∈ s
    · rw [if_pos hmem]
      exact ⟨ih.1.filter _, le_trans (List.length_filter_le _ s) ih.2⟩
    · rw [if_neg hmem]
      by_cases hlen : ANALYZE_LIMIT ≤ s.length
      · rw [if_pos hlen]
        exact ih
      · rw [if_neg hlen]
        constructor
        · refine List.Nodup.append ih.1 (List.nodup_singleton id) ?_
          intro x hx hx'
          rw [List.mem_singleton.mp hx'] at hx
          exact hmem hx
        · rw [List.length_append, List.length_singleton]
          omega

/-- C9: the comparison selection never holds duplicates and never exceeds
`ANALYZE_LIMIT = 6` entries on any state reachable through the exposed
updaters; `toggleCompare` removes an already-selected id (exactly that id,
on a duplicate-free selection), appends an unselected id while fewer than 6
are selected, leaves a full selection unchanged, and `clearCompare` is the
empty selection. -/
theorem C9_toggleCompare_invariant (id : String) (s : List String) :
    (id ∈ s → toggleCompare id s = s.filter (fun item => item ≠ id)) ∧
    (id ∉ s → s.length < ANALYZE_LIMIT → toggleCompare id s = s ++ [id]) ∧
    (id ∉ s → ANALYZE_LIMIT ≤ s.length → toggleCompare id s = s) ∧
    clearCompare = ([] : List String) ∧
    (ReachableSelection s → s.Nodup ∧ s.length ≤ ANALYZE_LIMIT) ∧
    (ReachableSelection s → id ∈ s →
      id ∉ toggleCompare id s ∧
      (toggleCompare id s).length + 1 = s.length ∧
      ∀ x, x ≠ id → (x ∈ toggleCompare id s ↔ x ∈ s)) := by
  refine ⟨?_, ?_, ?_, rfl, reachable_invariant s, ?_⟩
  · intro hmem
    unfold toggleCompare
    rw [if_pos hmem]
  · intro hmem hlen
    unfold toggleCompare
    rw [if_neg hmem, if_neg (by omega)]
  · intro hmem hlen
    unfold toggleCompare
    rw [if_neg hmem, if_pos hlen]
  · intro hr hmem
    have hnd := (reachable_invariant s hr).1
    have hfe : toggleCompare id s = s.filter (fun item => item ≠ id) := by
      unfold toggleCompare
      rw [if_pos hmem]
    have herase : s.filter (fun item => item ≠ id) = s.erase id := by
      rw [List.Nodup.erase_eq_filter hnd id]
      apply List.filter_congr
      intro x _
      by_cases h : id = x
      · subst h
        simp
      · have h2 : ¬ x = id := fun hc => h hc.symm
        simp [h, h2]
    refine ⟨?_, ?_, ?_⟩
    · rw [hfe]
      intro hcontra
      simpa using (List.mem_filter.mp hcontra).2
    · rw [hfe, herase]
      rw [List.length_erase_of_mem hmem]
      have : 1 ≤ s.length := List.length_pos.mpr (List.ne_nil_of_mem hmem)
      omega
    · intro x hx
      rw [hfe]
      constructor
      · intro hmem'
        exact (List.mem_filter.mp hmem').1
      · intro hmem'
        exact List.mem_filter.mpr ⟨hmem', by simpa using hx⟩

theorem C9_witness :
    ReachableSelection ["a"] ∧
    (["a"] : List String).Nodup ∧ (["a"] : List String).length ≤ ANALYZE_LIMIT := by
  have hr : ReachableSelection ["a"] := by
    have h := ReachableSelection.toggle "a" ReachableSelection.init
    simpa [toggleCompare, ANALYZE_LIMIT] using h
  exact ⟨hr, (C9_toggleCompare_invariant "a" ["a"]).2.2.2.2.1 hr⟩

/-- C10: for a configured metric and a non-empty aircraft list, the built
stats entry exists, its `min` and `max` are the minimum and maximum of the
`valueOrZero`-substituted attribute values, an entity whose attribute is
absent or non-finite forces `min ≤ 0`, and `span = max(max - min, 1) ≥ 1`. -/
theorem C10_buildMetricStats_spec (l : List Aircraft) (m : Metric)
    (hm : m ∈ ANALYZE_METRICS) (hl : l ≠ []) :
    ∃ s, buildMetricStats l m.key = some s ∧
      s.min ∈ l.map (fun a => valueOrZero (a.attrs m.key)) ∧
      (∀ v ∈ l.map (fun a => valueOrZero (a.attrs m.key)), s.min ≤ v) ∧
      s.max ∈ l.map (fun a => valueOrZero (a.attrs m.key)) ∧
      (∀ v ∈ l.map (fun a => valueOrZero (a.attrs m.key)), v ≤ s.max) ∧
      s.span = max (s.max - s.min) 1 ∧
      1 ≤ s.span ∧
      ∀ a ∈ l, (a.attrs m.key = JsNum.absent ∨ a.attrs m.key = JsNum.nonFinite) →
        s.min ≤ 0 := by
  obtain ⟨m'', hfind, hkey⟩ := find?_metric_key m hm
  obtain ⟨a₀, rest, rfl⟩ := List.exists_cons_of_ne_nil hl
  have hmin := foldl_min_spec (rest.map (fun a => valueOrZero (a.attrs m.key)))
    (valueOrZero (a₀.attrs m.key))
  have hmax := foldl_max_spec (rest.map (fun a => valueOrZero (a.attrs m.key)))
    (valueOrZero (a₀.attrs m.key))
  set mn := (rest.map (fun a => valueOrZero (a.attrs m.key))).foldl min
    (valueOrZero (a₀.attrs m.key)) with hmn
  set mx := (rest.map (fun a => valueOrZero (a.attrs m.key))).foldl max
    (valueOrZero (a₀.attrs m.key)) with hmx
  have hminmem : mn ∈ (a₀ :: rest).map (fun a => valueOrZero (a.attrs m.key)) := by
    rcases hmin.1 with h | h
    · rw [h]
      exact List.mem_map.mpr ⟨a₀, List.mem_cons_self a₀ rest, rfl⟩
    · exact List.mem_cons_of_mem _ h
  have hminle : ∀ v ∈ (a₀ :: rest).map (fun a => valueOrZero (a.attrs m.key)),
      mn ≤ v := by
    intro v hv
    rcases List.mem_cons.mp hv with rfl | hv
    · exact hmin.2.1
    · exact hmin.2.2 v hv
  have hmaxmem : mx ∈ (a₀ :: rest).map (fun a => valueOrZero (a.attrs m.key)) := by
    rcases hmax.1 with h | h
    · rw [h]
      exact List.mem_map.mpr ⟨a₀, List.mem_cons_self a₀ rest, rfl⟩
    · exact List.mem_cons_of_mem _ h
  have hmaxle : ∀ v ∈ (a₀ :: rest).map (fun a => valueOrZero (a.attrs m.key)),
      v ≤ mx := by
    intro v hv
    rcases List.mem_cons.mp hv with rfl | hv
    · exact hmax.2.1
    · exact hmax.2.2 v hv
  refine ⟨⟨mn, mx, max (mx - mn) 1⟩, ?_, hminmem, hminle, hmaxmem, hmaxle, rfl,
    le_max_right _ _, ?_⟩
  · unfold buildMetricStats
    rw [hfind]
    dsimp only
    rw [hkey]
    dsimp only [List.map_cons]
  · intro a ha hzero
    have h0 : valueOrZero (a.attrs m.key) = 0 := by
      rcases hzero with h | h <;> rw [h] <;> rfl
    have := hminle (valueOrZero (a.attrs m.key))
      (List.mem_map.mpr ⟨a, ha, rfl⟩)
    rw [h0] at this
    exact this

theorem C10_witness :
    mC1 ∈ ANALYZE_METRICS ∧ ([acC10] : List Aircraft) ≠ [] ∧
    ∃ s, buildMetricStats [acC10] mC1.key = some s ∧
      s.min ∈ [acC10].map (fun a => valueOrZero (a.attrs mC1.key)) ∧
      (∀ v ∈ [acC10].map (fun a => valueOrZero (a.attrs mC1.key)), s.min ≤ v) ∧
      s.max ∈ [acC10].map (fun a => valueOrZero (a.attrs mC1.key)) ∧
      (∀ v ∈ [acC10].map (fun a => valueOrZero (a.attrs mC1.key)), v ≤ s.max) ∧
      s.span = max (s.max - s.min) 1 ∧
      1 ≤ s.span ∧
      ∀ a ∈ [acC10], (a.attrs mC1.key = JsNum.absent ∨
          a.attrs mC1.key = JsNum.nonFinite) →
        s.min ≤ 0 :=
  ⟨List.mem_cons_self _ _, List.cons_ne_nil _ _,
    C10_buildMetricStats_spec [acC10] mC1 (List.mem_cons_self _ _)
      (List.cons_ne_nil _ _)⟩

/-! Claim C6: the summary cache. -/

theorem lookup_insert_self (cache : List (String × Option Summary))
    (t : String) (v : Option Summary) : ((t, v) :: cache).lookup t = some v := by
  simp [List.lookup]

theorem lookup_insert_ne (cache : List (String × Option Summary))
    (t k : String) (v : Option Summary) (h : k ≠ t) :
    ((t, v) :: cache).lookup k = cache.lookup k := by
  simp only [List.lookup]
  rw [show (k == t) = false by simp [h]]

theorem processTitle_preserves (cache : List (String × Option Summary))
    (t : String) (o : FetchOutcome) (k : String) (v : Option Summary)
    (h : cache.lookup k = some v) :
    ((processTitle cache t o).cache).lookup k = some v := by
  unfold processTitle
  cases hc : cache.lookup t with
  | some w => exact h
  | none =>
    have hkt : k ≠ t := by
      intro heq
      rw [heq, hc] at h
      exact Option.noConfusion h
    cases o with
    | resolved s =>
      dsimp only
      rw [lookup_insert_ne cache t k s hkt]
      exact h
    | abortError => exact h
    | otherError =>
      dsimp only
      rw [lookup_insert_ne cache t k none hkt]
      exact h

theorem runTitles_preserves : ∀ (titles : List String)
    (cache : List (String × Option Summary)) (o : String → FetchOutcome)
    (k : String) (v : Option Summary), cache.lookup k = some v →
    ((runTitles cache titles o).1).lookup k = some v
  | [], _, _, _, _, h => h
  | t :: ts, cache, o, k, v, h => by
    unfold runTitles
    dsimp only
    exact runTitles_preserves ts _ o k v (processTitle_preserves cache t (o t) k v h)

theorem runTitles_covers : ∀ (titles : List String)
    (cache : List (String × Option Summary)) (o : String → FetchOutcome),
    (∀ t ∈ titles, o t ≠ FetchOutcome.abortError) →
    ∀ t ∈ titles, ∃ v, ((runTitles cache titles o).1).lookup t = some v
  | [], _, _, _ => by
    intro t ht
    exact absurd ht (List.not_mem_nil t)
  | t₀ :: ts, cache, o, hno => by
    intro t ht
    unfold runTitles
    dsimp only
    rcases List.mem_cons.mp ht with rfl | hts
    · have hcached : ∃ v, ((processTitle cache t (o t)).cache).lookup t = some v := by
        unfold processTitle
        cases hc : cache.lookup t with
        | some w => exact ⟨w, hc⟩
        | none =>
          cases ho : o t with
          | resolved s => exact ⟨s, lookup_insert_self cache t s⟩
          | abortError => exact absurd ho (hno t (List.mem_cons_self t ts))
          | otherError => exact ⟨none, lookup_insert_self cache t none⟩
      obtain ⟨v, hv⟩ := hcached
      exact ⟨v, runTitles_preserves ts _ o t v hv⟩
    · exact runTitles_covers ts _ o (fun x hx => hno x (List.mem_cons_of_mem t₀ hx)) t hts

theorem runTitles_all_cached_count : ∀ (titles : List String)
    (cache : List (String × Option Summary)) (o : String → FetchOutcome),
    (∀ t ∈ titles, ∃ v, cache.lookup t = some v) →
    (runTitles cache titles o).2 = 0
  | [], _, _, _ => rfl
  | t :: ts, cache, o, h => by
    unfold runTitles
    obtain ⟨v, hv⟩ := h t (List.mem_cons_self t ts)
    have hstep : processTitle cache t (o t) = ⟨cache, v, false⟩ := by
      unfold processTitle
      rw [hv]
    rw [hstep]
    dsimp only
    rw [runTitles_all_cached_count ts cache o (fun x hx => h x (List.mem_cons_of_mem t hx))]
    simp

/-- C6: a title already in the cache is answered without a fetch, leaving
the cache unchanged; a fetch that fails with an `AbortError` leaves the
cache exactly unchanged (so the key it was for is still absent); a fetch
failure not caused by cancellation writes a `null` entry for the key; a
second pass over a title list whose first pass settled with no abort
performs zero fetches; and an entry once written is never overwritten
(the negative `null` entry is permanent). -/
theorem C6_cache_write_policy :
    (∀ (cache : List (String × Option Summary)) (t : String) (o : FetchOutcome)
      (v : Option Summary), cache.lookup t = some v →
        processTitle cache t o = ⟨cache, v, false⟩) ∧
    (∀ (cache : List (String × Option Summary)) (t : String),
      (processTitle cache t FetchOutcome.abortError).cache = cache) ∧
    (∀ (cache : List (String × Option Summary)) (t : String),
      cache.lookup t = none →
        (processTitle cache t FetchOutcome.abortError).cache.lookup t = none ∧
        (processTitle cache t FetchOutcome.otherError).cache.lookup t = some none) ∧
    (∀ (titles : List String) (cache : List (String × Option Summary))
      (o o₂ : String → FetchOutcome),
      (∀ t ∈ titles, o t ≠ FetchOutcome.abortError) →
      (runTitles (runTitles cache titles o).1 titles o₂).2 = 0) ∧
    (∀ (cache : List (String × Option Summary)) (t : String) (o : FetchOutcome)
      (k : String) (v : Option Summary), cache.lookup k = some v →
        ((processTitle cache t o).cache).lookup k = some v) := by
  refine ⟨?_, ?_, ?_, ?_, processTitle_preserves⟩
  · intro cache t o v hv
    unfold processTitle
    rw [hv]
  · intro cache t
    unfold processTitle
    cases hc : cache.lookup t <;> rfl
  · intro cache t hnone
    unfold processTitle
    rw [hnone]
    exact ⟨hnone, lookup_insert_self cache t none⟩
  · intro titles cache o o₂ hno
    exact runTitles_all_cached_count titles _ o₂ (runTitles_covers titles cache o hno)

theorem C6_witness :
    (([("K", (none : Option Summary))].lookup "K") = some none) ∧
    processTitle [("K", none)] "K" FetchOutcome.otherError =
      ⟨[("K", none)], none, false⟩ := by
  have h : ([("K", (none : Option Summary))].lookup "K") = some none := rfl
  exact ⟨h, C6_cache_write_policy.1 [("K", none)] "K" FetchOutcome.otherError none h⟩

/-! Claims C7 and C8: the asset-resolution probe. -/

theorem probeCandidates_spec (net : AssetPath → Option ProbeResponse) :
    ∀ cs : List AssetPath,
      probeCandidates net cs =
        (cs.find? (fun c => headAccepts net c),
         cs.take (cs.findIdx (fun c => headAccepts net c) + 1))
  | [] => rfl
  | c :: cs => by
    unfold probeCandidates
    by_cases h : headAccepts net c
    · rw [if_pos h]
      rw [List.find?_cons_of_pos _ h, List.findIdx_cons]
      simp [h]
    · have hb : headAccepts net c = false := by simpa using h
      rw [if_neg h]
      dsimp only
      rw [probeCandidates_spec net cs]
      rw [List.find?_cons_of_neg _ h, List.findIdx_cons, hb]
      simp

theorem probeCandidates_all_fail (net : AssetPath → Option ProbeResponse) :
    ∀ cs : List AssetPath, (∀ c ∈ cs, headAccepts net c = false) →
      probeCandidates net cs = (none, cs)
  | [], _ => rfl
  | c :: cs, h => by
    unfold probeCandidates
    rw [if_neg (by simp [h c (List.mem_cons_self c cs)])]
    dsimp only
    rw [probeCandidates_all_fail net cs (fun x hx => h x (List.mem_cons_of_mem c hx))]

/-- C7: a non-empty primary path under the verified root yields exactly the
candidate pair `[path, path with the verified root replaced by the
unverified root]`, any other non-empty path yields `[path]`; and whenever
some candidate is accepted, `verify` commits `ready` with the first accepted
candidate (in candidate order) as the resolved path, having issued `HEAD`
requests exactly through that candidate — candidates whose check throws or
returns a non-success, non-405 status are passed over. -/
theorem C7_probe_order (path : AssetPath) (hne : path ≠ [])
    (net : AssetPath → Option ProbeResponse) :
    (verifiedRoot.isPrefixOf path →
      modelPathCandidates path =
        [path, unverifiedRoot ++ path.drop verifiedRoot.length]) ∧
    (¬ verifiedRoot.isPrefixOf path → modelPathCandidates path = [path]) ∧
    ∀ c, (modelPathCandidates path).find? (fun x => headAccepts net x) = some c →
      verify (some path) net =
        ⟨Availability.ready, some c,
          (modelPathCandidates path).take
            ((modelPathCandidates path).findIdx (fun x => headAccepts net x) + 1)⟩ := by
  have hlen : ¬ path.length = 0 := by simpa using hne
  refine ⟨?_, ?_, ?_⟩
  · intro hp
    have hneq : ¬ (unverifiedRoot ++ path.drop verifiedRoot.length = path) := by
      obtain ⟨t, ht⟩ := List.isPrefixOf_iff_prefix.mp hp
      intro hcontra
      rw [← ht, List.drop_left] at hcontra
      have hlen2 := congrArg List.length hcontra
      rw [List.length_append, List.length_append] at hlen2
      have h17 : verifiedRoot.length = 17 := rfl
      have h19 : unverifiedRoot.length = 19 := rfl
      omega
    unfold modelPathCandidates
    rw [if_neg hlen, if_neg (not_not_intro hp)]
    dsimp only
    rw [if_neg hneq]
  · intro hp
    unfold modelPathCandidates
    rw [if_neg hlen, if_pos hp]
  · intro c hc
    simp only [verify]
    rw [if_neg hlen]
    rw [probeCandidates_spec net (modelPathCandidates path)]
    dsimp only
    rw [hc]

/-- C8: when every candidate's check fails (throws, or answers a
non-success, non-405 status), `verify` commits `missing` with the original
primary path as the resolved path after probing every candidate; with no
primary path at all it immediately commits `missing` with a `null` resolved
path and issues no request. -/
theorem C8_missing_results (path : AssetPath) (hne : path ≠ [])
    (net : AssetPath → Option ProbeResponse)
    (hfail : ∀ c ∈ modelPathCandidates path, headAccepts net c = false) :
    verify (some path) net =
      ⟨Availability.missing, some path, modelPathCandidates path⟩ ∧
    verify none net = ⟨Availability.missing, none, []⟩ ∧
    (verify none net).requests = [] := by
  refine ⟨?_, rfl, rfl⟩
  simp only [verify]
  rw [if_neg (by simpa using hne)]
  rw [probeCandidates_all_fail net (modelPathCandidates path) hfail]

theorem C7_witness :
    pathC7 ≠ [] ∧
    (modelPathCandidates pathC7).find? (fun x => headAccepts netC7 x) =
      some (unverifiedRoot ++ pathC7.drop verifiedRoot.length) ∧
    verify (some pathC7) netC7 =
      ⟨Availability.ready, some (unverifiedRoot ++ pathC7.drop verifiedRoot.length),
        (modelPathCandidates pathC7).take
          ((modelPathCandidates pathC7).findIdx (fun x => headAccepts netC7 x) + 1)⟩ := by
  have hne : pathC7 ≠ [] := by decide
  have hfind : (modelPathCandidates pathC7).find? (fun x => headAccepts netC7 x) =
      some (unverifiedRoot ++ pathC7.drop verifiedRoot.length) := by decide
  exact ⟨hne, hfind, (C7_probe_order pathC7 hne netC7).2.2 _ hfind⟩

theorem C8_witness :
    pathC8 ≠ [] ∧
    (∀ c ∈ modelPathCandidates pathC8, headAccepts netC8 c = false) ∧
    verify (some pathC8) netC8 =
      ⟨Availability.missing, some pathC8, modelPathCandidates pathC8⟩ ∧
    verify none netC8 = ⟨Availability.missing, none, []⟩ := by
  have hne : pathC8 ≠ [] := by decide
  have hfail : ∀ c ∈ modelPathCandidates pathC8, headAccepts netC8 c = false := by
    decide
  have h := C8_missing_results pathC8 hne netC8 hfail
  exact ⟨hne, hfail, h.1, h.2.1⟩

end Jetsite
